import Mathlib

/-!
# Verification of the configly loader (`load.go` / `source.go`)

Shallow embedding of the tag-driven configuration loader:
tag parsing (`parseTag`, `parseAllTags`), source resolution
(`getValueFromSources`), coercion (`setField`), validation
(`validateField`) and the orchestration (`Load`).

Go standard-library primitives used by the code are modelled explicitly:
`strconv.ParseInt` / `ParseUint` / `Atoi` / `ParseBool`, `strings.Split`
(single-character separator), `strings.TrimSpace` (ASCII whitespace;
the exotic Unicode space code points are irrelevant to every property
proved here), `strings.HasPrefix` / `TrimPrefix`, and Go's `len` on
strings (UTF-8 byte count).  `time.ParseDuration` and
`strconv.ParseFloat` are opaque parameters of the model (bundled in
`StdPrims`): no property below depends on their behaviour, only on how
the loader reacts to their success or failure.

The loader mutates a struct via reflection; the embedding threads the
record explicitly as a `List GoValue` indexed by field index.  `Load`
additionally returns the trace of `GetValue` invocations (source name,
key), which makes "no source was queried" statable.
-/

namespace Configly

/-! ## Go standard-library string primitives -/

/-- Decimal digit accumulation used by `strconv.ParseUint` (base 10,
no underscores since the base is given explicitly). -/
def decDigitsAux : List Char → Nat → Option Nat
  | [], acc => some acc
  | c :: cs, acc =>
    if c.isDigit then decDigitsAux cs (acc * 10 + (c.toNat - 48)) else none

/-- `strconv.ParseUint(s, 10, bitSize)`: no sign allowed, decimal digits
only, `none` on empty input, syntax error, or overflow of `bitSize`
(Go reports `ErrRange`; every caller in the repo treats any error as
failure). -/
def goParseUint (s : String) (bitSize : Nat) : Option Nat :=
  match s.data with
  | [] => none
  | cs =>
    match decDigitsAux cs 0 with
    | none => none
    | some n => if n < 2 ^ bitSize then some n else none

/-- `strconv.ParseInt(s, 10, bitSize)`: optional leading sign, then
decimal digits; range `[-2^(bitSize-1), 2^(bitSize-1)-1]`. -/
def goParseInt (s : String) (bitSize : Nat) : Option Int :=
  match s.data with
  | [] => none
  | c :: cs =>
    let signDigits : Bool × List Char :=
      if c = '-' then (true, cs)
      else if c = '+' then (false, cs)
      else (false, c :: cs)
    match signDigits.2 with
    | [] => none
    | ds =>
      match decDigitsAux ds 0 with
      | none => none
      | some n =>
        if signDigits.1 then
          if (n : Int) ≤ 2 ^ (bitSize - 1) then some (-(n : Int)) else none
        else
          if (n : Int) < 2 ^ (bitSize - 1) then some (n : Int) else none

/-- `strconv.Atoi` on a 64-bit platform: `ParseInt(s, 10, 64)`. -/
def goAtoi (s : String) : Option Int := goParseInt s 64

/-- `strconv.ParseBool`. -/
def goParseBool (s : String) : Option Bool :=
  if s = "1" ∨ s = "t" ∨ s = "T" ∨ s = "true" ∨ s = "TRUE" ∨ s = "True" then
    some true
  else if s = "0" ∨ s = "f" ∨ s = "F" ∨ s = "false" ∨ s = "FALSE" ∨ s = "False" then
    some false
  else none

/-- `strings.Split` with a single-character separator (the loader only
ever splits on `","`). -/
def goSplitAux (sep : Char) : List Char → List Char → List String
  | [], acc => [String.mk acc.reverse]
  | c :: cs, acc =>
    if c = sep then String.mk acc.reverse :: goSplitAux sep cs []
    else goSplitAux sep cs (c :: acc)

def goSplit (s : String) (sep : Char) : List String := goSplitAux sep s.data []

/-- ASCII fragment of `unicode.IsSpace`; the loader only trims tag
segments, where non-ASCII whitespace never occurs in any property
proved here. -/
def isGoSpace (c : Char) : Bool :=
  c = ' ' ∨ c = '\t' ∨ c = '\n' ∨ c = '\r' ∨ c = '\x0b' ∨ c = '\x0c'

def dropLeadingSpace : List Char → List Char
  | [] => []
  | c :: cs => if isGoSpace c then dropLeadingSpace cs else c :: cs

/-- `strings.TrimSpace`. -/
def goTrimSpace (s : String) : String :=
  String.mk ((dropLeadingSpace (dropLeadingSpace s.data.reverse).reverse))

/-- `strings.HasPrefix`. -/
def hasPfx : List Char → List Char → Bool
  | [], _ => true
  | _, [] => false
  | p :: ps, c :: cs => p = c && hasPfx ps cs

def goHasPrefix (s pfx : String) : Bool := hasPfx pfx.data s.data

/-- Drop the first `n` characters (used to model `strings.TrimPrefix`
at call sites where the prefix is known to be present and ASCII, so
character count equals byte count). -/
def goDropChars (s : String) (n : Nat) : String := String.mk (s.data.drop n)

/-- Go `len` of a string: number of bytes of the UTF-8 encoding. -/
def charUtf8Bytes (c : Char) : Nat :=
  if c.toNat ≤ 0x7F then 1
  else if c.toNat ≤ 0x7FF then 2
  else if c.toNat ≤ 0xFFFF then 3
  else 4

def goStrLen (s : String) : Nat := s.data.foldl (fun n c => n + charUtf8Bytes c) 0

/-! ## Two's-complement machine-integer conversions (`reflect.Value.SetInt`
/ `SetUint` store into the field's width by Go's truncating integer
conversion). -/

/-- Go conversion `intN(x)` of an `int64` value: two's-complement
truncation to `bits` bits. -/
def wrapInt (bits : Nat) (x : Int) : Int :=
  let m := x % ((2 : Int) ^ bits)
  if m < (2 : Int) ^ (bits - 1) then m else m - (2 : Int) ^ bits

/-- Go conversion `uintN(x)` of a `uint64` value. -/
def wrapUint (bits : Nat) (x : Nat) : Nat := x % 2 ^ bits

/-- Go conversion `uint64(x)` of an `int64` value (used by
`validateField` to reinterpret a signed bound against an unsigned
field). -/
def intToUint64 (x : Int) : Nat := (x % ((2 : Int) ^ 64)).toNat

/-! ## Data model -/

/-- The `reflect.Kind` of a struct field, restricted to the kinds the
loader distinguishes.  `isDuration` records type identity with
`time.Duration` (whose kind is `Int64`); `setField` checks exactly
this. -/
inductive RKind where
  | rstring
  | rint (bits : Nat) (isDuration : Bool)
  | ruint (bits : Nat)
  | rfloat (bits : Nat)
  | rbool
  | rother (desc : String)
  deriving DecidableEq, Repr

/-- A typed Go field value as stored in the record.  Signed values are
kept post-truncation (what `reflect.Value.SetInt` stored); floats are
abstracted as rationals (no claim touches float arithmetic). -/
inductive GoValue where
  | vstr (s : String)
  | vint (v : Int)
  | vuint (v : Nat)
  | vfloat (v : Rat)
  | vbool (b : Bool)
  | vother
  deriving DecidableEq, Repr

/-- The zero value a Go struct field starts with. -/
def zeroValue : RKind → GoValue
  | .rstring => .vstr ""
  | .rint _ _ => .vint 0
  | .ruint _ => .vuint 0
  | .rfloat _ => .vfloat 0
  | .rbool => .vbool false
  | .rother _ => .vother

/-- A tag-parse warning produced by `parseTag` (the wrapped `strconv`
error is abbreviated to the offending literal). -/
inductive TagErr where
  | invalidMin (lit : String)
  | invalidMax (lit : String)
  | invalidMinLen (lit : String)
  | invalidMaxLen (lit : String)
  deriving DecidableEq, Repr

/-- A coercion failure from `setField` (the wrapped parse error is
abbreviated to the offending input / kind). -/
inductive CoerceErr where
  | invalidDuration (s : String)
  | invalidInteger (s : String)
  | invalidUnsignedInteger (s : String)
  | invalidFloat (s : String)
  | invalidBoolean (s : String)
  | unsupportedFieldType (kind : String)
  deriving DecidableEq, Repr

/-- A bound violation from `validateField`, carrying the actual value
and the bound exactly as the Go error message does. -/
inductive ValErr where
  | strTooShort (len bound : Int)
  | strTooLong (len bound : Int)
  | intTooSmall (v bound : Int)
  | intTooBig (v bound : Int)
  | uintTooSmall (v : Nat) (bound : Int)
  | uintTooBig (v : Nat) (bound : Int)
  | floatTooSmall (v : Rat) (bound : Int)
  | floatTooBig (v : Rat) (bound : Int)
  deriving DecidableEq, Repr

/-- One entry of the `validationErrors` slice accumulated by `Load`.
`errors.Join` is modelled by the list itself (its message is the
newline-join of the members' messages, see `renderLoadErr`). -/
inductive LoadErr where
  | tagParse (e : TagErr)
  | requiredNotFound (key : String)
  | settingField (key source : String) (e : CoerceErr)
  | validation (e : ValErr)
  deriving DecidableEq, Repr

/-- `tagOptions`: parsed options from a struct field's tag. -/
structure TagOptions where
  key : String
  fieldIdx : Nat := 0
  required : Bool := false
  defaultValue : String := ""
  min : Option Int := none
  max : Option Int := none
  minLen : Option Int := none
  maxLen : Option Int := none
  deriving DecidableEq, Repr

/-- The per-field static metadata `Load` reads via reflection:
the field's kind, the raw tag string under the loader's tag key
(`""` when absent, as `reflect.StructTag.Get` returns), and
`reflect.Value.CanSet` (false for unexported fields). -/
structure FieldDescr where
  kind : RKind
  tag : String
  canSet : Bool := true
  deriving DecidableEq, Repr

/-- A configuration source: `Name()` and `GetValue(key) -> (val, found,
err)`.  The error is modelled as an optional message. -/
structure Source where
  name : String
  getValue : String → String × Bool × Option String

/-- The standard-library primitives `setField` delegates to whose
behaviour no claim depends on: `time.ParseDuration` (nanosecond count)
and `strconv.ParseFloat(s, 64)` (value abstracted as a rational). -/
structure StdPrims where
  parseDuration : String → Option Int
  parseFloat : String → Option Rat

/-! ## Tag parsing -/

/-- One iteration of `parseTag`'s option loop: trim the segment, then
the Go `switch` (exact `required`, prefixes `default=`, `min=`, `max=`,
`minLen=`, `maxLen=`; anything else silently ignored). -/
def parseTagPart (st : TagOptions × List TagErr) (part0 : String) :
    TagOptions × List TagErr :=
  let opts := st.1
  let warnings := st.2
  let part := goTrimSpace part0
  if part = "required" then ({ opts with required := true }, warnings)
  else if goHasPrefix part "default=" then
    ({ opts with defaultValue := goDropChars part 8 }, warnings)
  else if goHasPrefix part "min=" then
    match goParseInt (goDropChars part 4) 64 with
    | some v => ({ opts with min := some v }, warnings)
    | none => (opts, warnings ++ [.invalidMin (goDropChars part 4)])
  else if goHasPrefix part "max=" then
    match goParseInt (goDropChars part 4) 64 with
    | some v => ({ opts with max := some v }, warnings)
    | none => (opts, warnings ++ [.invalidMax (goDropChars part 4)])
  else if goHasPrefix part "minLen=" then
    match goAtoi (goDropChars part 7) with
    | some v => ({ opts with minLen := some v }, warnings)
    | none => (opts, warnings ++ [.invalidMinLen (goDropChars part 7)])
  else if goHasPrefix part "maxLen=" then
    match goAtoi (goDropChars part 7) with
    | some v => ({ opts with maxLen := some v }, warnings)
    | none => (opts, warnings ++ [.invalidMaxLen (goDropChars part 7)])
  else (opts, warnings)

/-- `parseTag`: split on `","`, segment 0 (untrimmed) is the key, the
remaining segments are processed in order; all warnings are collected. -/
def parseTag (tag : String) : TagOptions × List TagErr :=
  let parts := goSplit tag ','
  (parts.drop 1).foldl parseTagPart ({ key := parts.headD "" }, [])

/-- `parseAllTags`'s field loop, written structurally (errors and
options come out in field order, exactly as the Go loop accumulates
them): skip non-settable fields and fields without a tag; a field whose
tag produced warnings contributes its warnings and no options. -/
def parseAllTagsAux : List FieldDescr → Nat → List LoadErr × List TagOptions
  | [], _ => ([], [])
  | f :: fs, idx =>
    let rest := parseAllTagsAux fs (idx + 1)
    if !f.canSet then rest
    else if f.tag = "" then rest
    else
      let parsed := parseTag f.tag
      if parsed.2 ≠ [] then (parsed.2.map .tagParse ++ rest.1, rest.2)
      else (rest.1, { parsed.1 with fieldIdx := idx } :: rest.2)

/-- `parseAllTags`: join and return all tag-parse errors, or the parsed
options of every annotated field. -/
def parseAllTags (fields : List FieldDescr) :
    Except (List LoadErr) (List TagOptions) :=
  let res := parseAllTagsAux fields 0
  if res.1 = [] then .ok res.2 else .error res.1

/-! ## Source resolution -/

/-- `getValueFromSources`: query sources in order; a source returning
an error is logged and skipped; the first source with `found = true`
wins.  The second component is the trace of `GetValue` invocations
(source name, key) the loop performed. -/
def getValueFromSources :
    List Source → String → (String × String × Bool) × List (String × String)
  | [], _ => (("", "", false), [])
  | s :: rest, key =>
    let r := s.getValue key
    match r.2.2 with
    | some _ =>
      let next := getValueFromSources rest key
      (next.1, (s.name, key) :: next.2)
    | none =>
      if r.2.1 then ((r.1, s.name, true), [(s.name, key)])
      else
        let next := getValueFromSources rest key
        (next.1, (s.name, key) :: next.2)

/-! ## Coercion and validation -/

/-- `setField`: parse the raw string into the field's type.  Signed
fields of type `time.Duration` use `time.ParseDuration`; all other
signed fields use `strconv.ParseInt(s, 10, 64)` and `reflect.SetInt`,
which truncates the 64-bit result into the field's width; unsigned
fields likewise via `ParseUint`/`SetUint`. -/
def setField (prim : StdPrims) (kind : RKind) (strVal : String) :
    Except CoerceErr GoValue :=
  match kind with
  | .rstring => .ok (.vstr strVal)
  | .rint bits isDur =>
    if isDur then
      match prim.parseDuration strVal with
      | none => .error (.invalidDuration strVal)
      | some d => .ok (.vint (wrapInt 64 d))
    else
      match goParseInt strVal 64 with
      | none => .error (.invalidInteger strVal)
      | some v => .ok (.vint (wrapInt bits v))
  | .ruint bits =>
    match goParseUint strVal 64 with
    | none => .error (.invalidUnsignedInteger strVal)
    | some v => .ok (.vuint (wrapUint bits v))
  | .rfloat _ =>
    match prim.parseFloat strVal with
    | none => .error (.invalidFloat strVal)
    | some q => .ok (.vfloat q)
  | .rbool =>
    match goParseBool strVal with
    | none => .error (.invalidBoolean strVal)
    | some b => .ok (.vbool b)
  | .rother desc => .error (.unsupportedFieldType desc)

/-- `validateField`: dispatch on the field's kind; strings check
`minLen`/`maxLen` against the byte length, signed integers check
`min`/`max`, unsigned integers check them after `uint64` conversion of
the bound, floats after `float64` conversion; every other kind (bool,
unsupported) has no checks.  The first violated bound is returned. -/
def validateField (v : GoValue) (opts : TagOptions) : Option ValErr :=
  match v with
  | .vstr s =>
    let strLen : Int := (goStrLen s : Int)
    match opts.minLen with
    | some m =>
      if strLen < m then some (.strTooShort strLen m)
      else
        match opts.maxLen with
        | some mx => if strLen > mx then some (.strTooLong strLen mx) else none
        | none => none
    | none =>
      match opts.maxLen with
      | some mx => if strLen > mx then some (.strTooLong strLen mx) else none
      | none => none
  | .vint val =>
    match opts.min with
    | some m =>
      if val < m then some (.intTooSmall val m)
      else
        match opts.max with
        | some mx => if val > mx then some (.intTooBig val mx) else none
        | none => none
    | none =>
      match opts.max with
      | some mx => if val > mx then some (.intTooBig val mx) else none
      | none => none
  | .vuint val =>
    match opts.min with
    | some m =>
      if val < intToUint64 m then some (.uintTooSmall val m)
      else
        match opts.max with
        | some mx => if val > intToUint64 mx then some (.uintTooBig val mx) else none
        | none => none
    | none =>
      match opts.max with
      | some mx => if val > intToUint64 mx then some (.uintTooBig val mx) else none
      | none => none
  | .vfloat val =>
    match opts.min with
    | some m =>
      if val < (m : Rat) then some (.floatTooSmall val m)
      else
        match opts.max with
        | some mx => if val > (mx : Rat) then some (.floatTooBig val mx) else none
        | none => none
    | none =>
      match opts.max with
      | some mx => if val > (mx : Rat) then some (.floatTooBig val mx) else none
      | none => none
  | .vbool _ => none
  | .vother => none

/-! ## Load orchestration -/

/-- The kind of the field at `idx` (`val.Field(opts.fieldIdx)`); the
index always comes from the enumeration in `parseAllTags`, so the
fallback is never reached on indices `Load` produces. -/
def kindAt (fields : List FieldDescr) (idx : Nat) : RKind :=
  ((fields.get? idx).map (·.kind)).getD (.rother "invalid")

/-- The body of `Load`'s per-field loop over the parsed tag options,
threading the record (`cfg` under reflection) explicitly and also
returning the accumulated `validationErrors` and the trace of source
`GetValue` invocations.  `continue` is the tail call on the remaining
options. -/
def loadFields (prim : StdPrims) (srcs : List Source) (fields : List FieldDescr) :
    List TagOptions → List GoValue →
    (List GoValue × List LoadErr) × List (String × String)
  | [], record => ((record, []), [])
  | opts :: rest, record =>
    let r := getValueFromSources srcs opts.key
    let value0 := r.1.1
    let sourceName := r.1.2.1
    let found0 := r.1.2.2
    if !found0 && opts.required then
      let next := loadFields prim srcs fields rest record
      ((next.1.1, .requiredNotFound opts.key :: next.1.2), r.2 ++ next.2)
    else
      let value := if !found0 && opts.defaultValue ≠ "" then opts.defaultValue else value0
      let found := if !found0 && opts.defaultValue ≠ "" then true else found0
      if !found then
        let next := loadFields prim srcs fields rest record
        (next.1, r.2 ++ next.2)
      else
        match setField prim (kindAt fields opts.fieldIdx) value with
        | .error e =>
          let next := loadFields prim srcs fields rest record
          ((next.1.1, .settingField opts.key sourceName e :: next.1.2), r.2 ++ next.2)
        | .ok gv =>
          let next := loadFields prim srcs fields rest (record.set opts.fieldIdx gv)
          match validateField gv opts with
          | some ve => ((next.1.1, .validation ve :: next.1.2), r.2 ++ next.2)
          | none => (next.1, r.2 ++ next.2)

/-- `Load`: parse all tags first (aborting on any tag-parse error
before touching sources), then resolve / coerce / validate every
annotated field, and return either the fully populated record or the
join of every recorded error — never both.  The second component is
the trace of source `GetValue` invocations. -/
def Load (prim : StdPrims) (srcs : List Source) (fields : List FieldDescr) :
    Except (List LoadErr) (List GoValue) × List (String × String) :=
  match parseAllTags fields with
  | .error errs => (.error errs, [])
  | .ok tagOpts =>
    let res := loadFields prim srcs fields tagOpts (fields.map (fun f => zeroValue f.kind))
    (if res.1.2 = [] then .ok res.1.1 else .error res.1.2, res.2)

/-! ## Error messages

The renderings mirror the `fmt.Errorf` format strings; `errors.Join`'s
message is the newline-join of the member messages.  The texts wrapped
from `strconv` are abbreviated to the offending literal — no claim
depends on them — while the loader's own format strings are
reproduced exactly. -/

def renderCoerceErr : CoerceErr → String
  | .invalidDuration s => "invalid duration: " ++ s
  | .invalidInteger s => "invalid integer: " ++ s
  | .invalidUnsignedInteger s => "invalid unsigned integer: " ++ s
  | .invalidFloat s => "invalid float: " ++ s
  | .invalidBoolean s => "invalid boolean: " ++ s
  | .unsupportedFieldType k => "unsupported field type: " ++ k

def renderValErr : ValErr → String
  | .strTooShort l b =>
    "string length " ++ toString l ++ " less than minimum " ++ toString b
  | .strTooLong l b =>
    "string length " ++ toString l ++ " exceeds maximum " ++ toString b
  | .intTooSmall v b =>
    "integer value " ++ toString v ++ " is less than minimum " ++ toString b
  | .intTooBig v b =>
    "integer value " ++ toString v ++ " exceeds maximum " ++ toString b
  | .uintTooSmall v b =>
    "unsigned integer value " ++ toString v ++ " is less than minimum " ++ toString b
  | .uintTooBig v b =>
    "unsigned integer value " ++ toString v ++ " exceeds maximum " ++ toString b
  | .floatTooSmall v b =>
    "float value " ++ toString v ++ " is less than minimum " ++ toString b
  | .floatTooBig v b =>
    "float value " ++ toString v ++ " exceeds maximum " ++ toString b

def renderTagErr : TagErr → String
  | .invalidMin l => "invalid minimum value: " ++ l
  | .invalidMax l => "invalid maximum value: " ++ l
  | .invalidMinLen l => "invalid min length value " ++ l
  | .invalidMaxLen l => "invalid max length value " ++ l

def renderLoadErr : LoadErr → String
  | .tagParse e => renderTagErr e
  | .requiredNotFound key =>
    "required value " ++ key ++ " not found in provided sources"
  | .settingField key source e =>
    "error setting " ++ key ++ " (source " ++ source ++ "): " ++ renderCoerceErr e
  | .validation e => renderValErr e

/-! ## Concrete sources and primitives for witnesses -/

/-- `sources.MockSource` without an error: key/value map lookup. -/
def mockSource (name : String) (vals : List (String × String)) : Source where
  name := name
  getValue := fun k =>
    match vals.lookup k with
    | some v => (v, true, none)
    | none => ("", false, none)

/-- `sources.MockSource` with `Err` set: every lookup fails. -/
def errSource (name msg : String) : Source where
  name := name
  getValue := fun _ => ("", false, some msg)

/-- Trivial instantiation of the opaque standard-library primitives
(no witness below loads a duration or float field). -/
def trivPrims : StdPrims where
  parseDuration := fun _ => none
  parseFloat := fun _ => none

/-! ## Per-field summaries (proved below to coincide with the loop) -/

/-- The error `Load`'s loop records for one parsed option, if any:
missing-required, coercion failure, or bound violation. -/
def fieldErr (prim : StdPrims) (srcs : List Source) (fields : List FieldDescr)
    (opts : TagOptions) : Option LoadErr :=
  let r := (getValueFromSources srcs opts.key).1
  if !r.2.2 && opts.required then some (.requiredNotFound opts.key)
  else
    let value := if !r.2.2 && opts.defaultValue ≠ "" then opts.defaultValue else r.1
    let found := if !r.2.2 && opts.defaultValue ≠ "" then true else r.2.2
    if !found then none
    else
      match setField prim (kindAt fields opts.fieldIdx) value with
      | .error e => some (.settingField opts.key r.2.1 e)
      | .ok gv => (validateField gv opts).map .validation

/-- The value `Load`'s loop stores into one parsed option's field, if
any (coercion succeeded; validation never rolls the assignment back). -/
def fieldSet (prim : StdPrims) (srcs : List Source) (fields : List FieldDescr)
    (opts : TagOptions) : Option GoValue :=
  let r := (getValueFromSources srcs opts.key).1
  if !r.2.2 && opts.required then none
  else
    let value := if !r.2.2 && opts.defaultValue ≠ "" then opts.defaultValue else r.1
    let found := if !r.2.2 && opts.defaultValue ≠ "" then true else r.2.2
    if !found then none
    else
      match setField prim (kindAt fields opts.fieldIdx) value with
      | .error _ => none
      | .ok gv => some gv

/-! ## Structural lemmas about the loop -/

/-- The errors the loop accumulates are exactly the per-field summaries,
in field order. -/
theorem loadFields_errs (prim : StdPrims) (srcs : List Source) (fields : List FieldDescr) :
    ∀ (l : List TagOptions) (record : List GoValue),
      ((loadFields prim srcs fields l record).1).2
        = l.filterMap (fieldErr prim srcs fields) := by
  intro l
  induction l with
  | nil => intro record; rfl
  | cons opts rest ih =>
    intro record
    simp only [loadFields, fieldErr, List.filterMap_cons]
    repeat' split
    all_goals simp_all [ih]

/-- The loop only replaces entries, never grows or shrinks the record. -/
theorem loadFields_len (prim : StdPrims) (srcs : List Source) (fields : List FieldDescr) :
    ∀ (l : List TagOptions) (record : List GoValue),
      ((loadFields prim srcs fields l record).1).1.length = record.length := by
  intro l
  induction l with
  | nil => intro record; rfl
  | cons opts rest ih =>
    intro record
    simp only [loadFields]
    repeat' split
    all_goals simp_all [ih]

/-- An index none of the processed options targets keeps its value. -/
theorem loadFields_get_preserve (prim : StdPrims) (srcs : List Source)
    (fields : List FieldDescr) :
    ∀ (l : List TagOptions) (record : List GoValue) (i : Nat),
      (∀ o ∈ l, o.fieldIdx ≠ i) →
      ((loadFields prim srcs fields l record).1).1[i]? = record[i]? := by
  intro l
  induction l with
  | nil => intro record i _; rfl
  | cons opts rest ih =>
    intro record i h
    have hne : opts.fieldIdx ≠ i := h opts (List.mem_cons_self _ _)
    have hrest : ∀ o ∈ rest, o.fieldIdx ≠ i := fun o ho => h o (List.mem_cons_of_mem _ ho)
    simp only [loadFields]
    repeat' split
    all_goals
      first
        | exact ih record i hrest
        | (rw [ih _ i hrest]; exact List.getElem?_set_ne hne)

/-- When the field indices are strictly increasing (as `parseAllTags`
produces them) and an option's summary stores a value, the final record
holds that value at the option's index. -/
theorem loadFields_get_set (prim : StdPrims) (srcs : List Source)
    (fields : List FieldDescr) :
    ∀ (l : List TagOptions) (record : List GoValue) (o : TagOptions) (gv : GoValue),
      o ∈ l →
      List.Pairwise (fun a b => a.fieldIdx < b.fieldIdx) l →
      o.fieldIdx < record.length →
      fieldSet prim srcs fields o = some gv →
      ((loadFields prim srcs fields l record).1).1[o.fieldIdx]? = some gv := by
  intro l
  induction l with
  | nil => intro record o gv hmem; cases hmem
  | cons opts rest ih =>
    intro record o gv hmem hpw hlt hset
    rcases List.mem_cons.mp hmem with heq | hmem'
    · subst heq
      have hrest : ∀ o' ∈ rest, o'.fieldIdx ≠ o.fieldIdx := by
        intro o' ho'
        have := (List.pairwise_cons.mp hpw).1 o' ho'
        omega
      simp only [fieldSet] at hset
      simp only [loadFields]
      repeat' split
      all_goals repeat' split at hset
      all_goals simp_all
      all_goals
        rw [loadFields_get_preserve prim srcs fields rest _ _ hrest]
      all_goals exact List.getElem?_set_self hlt
    · have hpw' := (List.pairwise_cons.mp hpw).2
      have ih' : ∀ (record : List GoValue),
          o.fieldIdx < record.length →
          ((loadFields prim srcs fields rest record).1).1[o.fieldIdx]? = some gv :=
        fun record hr => ih record o gv hmem' hpw' hr hset
      simp only [loadFields]
      repeat' split
      all_goals
        first
          | exact ih' record hlt
          | exact ih' _ (by simpa [List.length_set] using hlt)

/-- Field indices produced by the tag pre-pass lie in
`[start, start + #fields)`. -/
theorem parseAllTagsAux_bounds :
    ∀ (fields : List FieldDescr) (start : Nat) (o : TagOptions),
      o ∈ (parseAllTagsAux fields start).2 →
      start ≤ o.fieldIdx ∧ o.fieldIdx < start + fields.length := by
  intro fields
  induction fields with
  | nil => intro start o h; simp [parseAllTagsAux] at h
  | cons f fs ih =>
    intro start o h
    simp only [parseAllTagsAux] at h
    repeat' split at h
    all_goals
      first
        | (have hb := ih (start + 1) o h; simp only [List.length_cons]; omega)
        | (rcases List.mem_cons.mp h with heq | hmem
           · subst heq; simp only [List.length_cons]; omega
           · have := ih (start + 1) o hmem; simp only [List.length_cons]; omega)

/-- Field indices produced by the tag pre-pass are strictly increasing:
each annotated field appears at most once in the option list. -/
theorem parseAllTagsAux_pairwise :
    ∀ (fields : List FieldDescr) (start : Nat),
      List.Pairwise (fun a b => a.fieldIdx < b.fieldIdx)
        (parseAllTagsAux fields start).2 := by
  intro fields
  induction fields with
  | nil => intro start; simp [parseAllTagsAux]
  | cons f fs ih =>
    intro start
    simp only [parseAllTagsAux]
    repeat' split
    all_goals
      first
        | exact ih (start + 1)
        | (refine List.pairwise_cons.mpr ⟨?_, ih (start + 1)⟩
           intro o ho
           have := (parseAllTagsAux_bounds fs (start + 1) o ho).1
           simpa using this)

/-- Every warning of every annotated, settable field with a malformed
tag ends up in the pre-pass error list. -/
theorem parseAllTagsAux_mem_err :
    ∀ (fields : List FieldDescr) (start : Nat) (i : Nat) (f : FieldDescr),
      fields[i]? = some f → f.canSet = true → f.tag ≠ "" →
      ∀ w ∈ (parseTag f.tag).2,
        LoadErr.tagParse w ∈ (parseAllTagsAux fields start).1 := by
  intro fields
  induction fields with
  | nil => intro start i f h; simp at h
  | cons g fs ih =>
    intro start i f hget hcan htag w hw
    match i, hget with
    | 0, hget =>
      have hf : g = f := by simpa using hget
      subst hf
      have hwarn : (parseTag g.tag).2 ≠ [] := by
        intro hnil; rw [hnil] at hw; cases hw
      simp only [parseAllTagsAux]
      repeat' split
      all_goals
        first
          | exact List.mem_append_left _ (List.mem_map_of_mem _ hw)
          | simp_all
    | i + 1, hget =>
      have hget' : fs[i]? = some f := by simpa using hget
      have hmem := ih (start + 1) i f hget' hcan htag w hw
      simp only [parseAllTagsAux]
      repeat' split
      all_goals first
        | exact hmem
        | exact List.mem_append_right _ hmem

/-- A source whose `GetValue` errors for a key is transparent to the
resolution result for that key (it still appears in the query trace). -/
theorem getValueFromSources_err_skip (s : Source) (rest : List Source) (key : String)
    (h : ((s.getValue key).2.2).isSome = true) :
    (getValueFromSources (s :: rest) key).1 = (getValueFromSources rest key).1 := by
  obtain ⟨e, he⟩ := Option.isSome_iff_exists.mp h
  simp [getValueFromSources, he]

/-- The loop's result (record and errors) depends on the sources only
through the resolution results per key. -/
theorem loadFields_srcs_congr (prim : StdPrims) (fields : List FieldDescr)
    (srcs₁ srcs₂ : List Source)
    (h : ∀ k, (getValueFromSources srcs₁ k).1 = (getValueFromSources srcs₂ k).1) :
    ∀ (l : List TagOptions) (record : List GoValue),
      (loadFields prim srcs₁ fields l record).1
        = (loadFields prim srcs₂ fields l record).1 := by
  intro l
  induction l with
  | nil => intro record; rfl
  | cons opts rest ih =>
    intro record
    simp only [loadFields, h opts.key]
    repeat' split
    all_goals simp [ih]

/-- Unfolding `parseAllTags` success: the options are the pre-pass
output and the pre-pass error list is empty. -/
theorem parseAllTags_ok_iff (fields : List FieldDescr) (tagOpts : List TagOptions)
    (h : parseAllTags fields = .ok tagOpts) :
    tagOpts = (parseAllTagsAux fields 0).2 ∧ (parseAllTagsAux fields 0).1 = [] := by
  by_cases hc : (parseAllTagsAux fields 0).1 = []
  · simp only [parseAllTags, hc, if_pos] at h
    exact ⟨(Except.ok.injEq _ _).mp h.symm, hc⟩
  · simp [parseAllTags, hc] at h

/-! ## Claims -/

/-- C1: `Load` is all-or-nothing.  Once the tags parse, either no
per-field error was recorded and `Load` returns the fully processed
record with no error, or some were and `Load` returns no record
together with the single aggregate error joining exactly the per-field
failures of every annotated field (`fieldErr`, the per-field summary of
resolution, coercion and validation errors). -/
theorem load_all_or_nothing (prim : StdPrims) (srcs : List Source)
    (fields : List FieldDescr) (tagOpts : List TagOptions)
    (hparse : parseAllTags fields = .ok tagOpts) :
    ((loadFields prim srcs fields tagOpts (fields.map fun f => zeroValue f.kind)).1.2
        = tagOpts.filterMap (fieldErr prim srcs fields)) ∧
    ((loadFields prim srcs fields tagOpts (fields.map fun f => zeroValue f.kind)).1.2 = [] →
      (Load prim srcs fields).1
        = .ok (loadFields prim srcs fields tagOpts
            (fields.map fun f => zeroValue f.kind)).1.1) ∧
    ((loadFields prim srcs fields tagOpts (fields.map fun f => zeroValue f.kind)).1.2 ≠ [] →
      (Load prim srcs fields).1
        = .error (loadFields prim srcs fields tagOpts
            (fields.map fun f => zeroValue f.kind)).1.2) := by
  refine ⟨loadFields_errs prim srcs fields tagOpts _, ?_, ?_⟩ <;>
    · intro h
      unfold Load
      rw [hparse]
      simp [h]

/-- C2: a resolved value that coerces but violates a declared bound
makes `Load` record that validation error and fail with no record. -/
theorem load_validation_error_fails (prim : StdPrims) (srcs : List Source)
    (fields : List FieldDescr) (tagOpts : List TagOptions) (opts : TagOptions)
    (v sn : String) (gv : GoValue) (ve : ValErr)
    (hparse : parseAllTags fields = .ok tagOpts)
    (hmem : opts ∈ tagOpts)
    (hres : (getValueFromSources srcs opts.key).1 = (v, sn, true))
    (hcoerce : setField prim (kindAt fields opts.fieldIdx) v = .ok gv)
    (hval : validateField gv opts = some ve) :
    ∃ errs, (Load prim srcs fields).1 = .error errs ∧ LoadErr.validation ve ∈ errs := by
  have hferr : fieldErr prim srcs fields opts = some (.validation ve) := by
    simp [fieldErr, hres, hcoerce, hval]
  have hmemerr : LoadErr.validation ve ∈ tagOpts.filterMap (fieldErr prim srcs fields) :=
    List.mem_filterMap.mpr ⟨opts, hmem, hferr⟩
  refine ⟨tagOpts.filterMap (fieldErr prim srcs fields), ?_, hmemerr⟩
  unfold Load
  rw [hparse]
  simp only [loadFields_errs]
  simp [List.ne_nil_of_mem hmemerr]

/-- C3 (amended): when a field is `required` and no source supplies its
key, `Load` records the missing-required error and stores nothing into
the field — regardless of any declared default, which is never applied
to a required field. -/
theorem required_precedes_default (prim : StdPrims) (srcs : List Source)
    (fields : List FieldDescr) (tagOpts : List TagOptions) (opts : TagOptions)
    (hparse : parseAllTags fields = .ok tagOpts)
    (hmem : opts ∈ tagOpts)
    (hreq : opts.required = true)
    (hnf : (getValueFromSources srcs opts.key).1.2.2 = false) :
    fieldSet prim srcs fields opts = none ∧
    ∃ errs, (Load prim srcs fields).1 = .error errs ∧
      LoadErr.requiredNotFound opts.key ∈ errs := by
  have hferr : fieldErr prim srcs fields opts = some (.requiredNotFound opts.key) := by
    simp [fieldErr, hreq, hnf]
  have hmemerr : LoadErr.requiredNotFound opts.key
      ∈ tagOpts.filterMap (fieldErr prim srcs fields) :=
    List.mem_filterMap.mpr ⟨opts, hmem, hferr⟩
  refine ⟨by simp [fieldSet, hreq, hnf], tagOpts.filterMap (fieldErr prim srcs fields), ?_, hmemerr⟩
  unfold Load
  rw [hparse]
  simp only [loadFields_errs]
  simp [List.ne_nil_of_mem hmemerr]

/-- C3 (counterexample to the claim as stated): a field annotated both
`required` and `default=x`, loaded against a source without the key,
records a missing-required error — the default does not silently
satisfy the field. -/
theorem required_default_counterexample :
    (Load trivPrims [mockSource "test" []]
        [⟨.rstring, "k,required,default=x", true⟩]).1
      = .error [.requiredNotFound "k"] := by rfl

/-- C4: if any annotated field's tag fails to parse, `Load` returns the
aggregate of all tag-parse errors of all fields and performs not a
single source `GetValue` invocation (empty query trace). -/
theorem tag_errors_abort_before_sources (prim : StdPrims) (srcs : List Source)
    (fields : List FieldDescr)
    (h : (parseAllTagsAux fields 0).1 ≠ []) :
    Load prim srcs fields = (.error (parseAllTagsAux fields 0).1, []) ∧
    ∀ (i : Nat) (f : FieldDescr), fields[i]? = some f → f.canSet = true → f.tag ≠ "" →
      ∀ w ∈ (parseTag f.tag).2, LoadErr.tagParse w ∈ (parseAllTagsAux fields 0).1 := by
  constructor
  · unfold Load parseAllTags
    simp [h]
  · exact fun i f hget hcan htag w hw => parseAllTagsAux_mem_err fields 0 i f hget hcan htag w hw

/-- C5: source priority is strict first-wins — a source at the head of
the list whose `GetValue` reports `found = true` (and no error)
supplies the resolved value and name, whatever the remaining sources
contain. -/
theorem first_source_wins (s : Source) (rest : List Source) (key v : String)
    (h : s.getValue key = (v, true, none)) :
    (getValueFromSources (s :: rest) key).1 = (v, s.name, true) := by
  simp [getValueFromSources, h]

/-- C6: a source whose `GetValue` errors for a key is treated as
not-found for that source only: resolution for that key continues with
the remaining sources, and a source erring on every key is entirely
invisible in `Load`'s outcome — its error never reaches the caller. -/
theorem source_error_never_surfaces (prim : StdPrims) (fields : List FieldDescr)
    (s : Source) (rest : List Source) :
    (∀ key, ((s.getValue key).2.2).isSome = true →
      (getValueFromSources (s :: rest) key).1 = (getValueFromSources rest key).1) ∧
    ((∀ key, ((s.getValue key).2.2).isSome = true) →
      (Load prim (s :: rest) fields).1 = (Load prim rest fields).1) := by
  constructor
  · exact fun key h => getValueFromSources_err_skip s rest key h
  · intro h
    unfold Load
    cases hp : parseAllTags fields with
    | error errs => rfl
    | ok tagOpts =>
      have hc := loadFields_srcs_congr prim fields (s :: rest) rest
        (fun k => getValueFromSources_err_skip s rest k (h k)) tagOpts
        (fields.map fun f => zeroValue f.kind)
      simp only [hc]

/-- C7: every required field with no value in any source puts the
missing-required message, naming the field's key, into the single
aggregate error `Load` returns; with several such fields each key's
message is present. -/
theorem missing_required_in_aggregate (prim : StdPrims) (srcs : List Source)
    (fields : List FieldDescr) (tagOpts : List TagOptions) (opts : TagOptions)
    (hparse : parseAllTags fields = .ok tagOpts)
    (hmem : opts ∈ tagOpts)
    (hreq : opts.required = true)
    (hnf : (getValueFromSources srcs opts.key).1.2.2 = false) :
    ∃ errs, (Load prim srcs fields).1 = .error errs ∧
      LoadErr.requiredNotFound opts.key ∈ errs ∧
      ("required value " ++ opts.key ++ " not found in provided sources")
        ∈ errs.map renderLoadErr := by
  have hferr : fieldErr prim srcs fields opts = some (.requiredNotFound opts.key) := by
    simp [fieldErr, hreq, hnf]
  have hmemerr : LoadErr.requiredNotFound opts.key
      ∈ tagOpts.filterMap (fieldErr prim srcs fields) :=
    List.mem_filterMap.mpr ⟨opts, hmem, hferr⟩
  refine ⟨tagOpts.filterMap (fieldErr prim srcs fields), ?_, hmemerr, ?_⟩
  · unfold Load
    rw [hparse]
    simp only [loadFields_errs]
    simp [List.ne_nil_of_mem hmemerr]
  · exact List.mem_map_of_mem renderLoadErr hmemerr

/-- C8: a non-required field with a coercible non-empty default and no
source match is stored as the coercion of the default literal: the loop
records no error for it as long as the coerced default passes its
bounds, and whenever `Load` returns a record the field holds
`coerce(D)`. -/
theorem default_coerced_into_field (prim : StdPrims) (srcs : List Source)
    (fields : List FieldDescr) (tagOpts : List TagOptions) (opts : TagOptions)
    (gv : GoValue)
    (hparse : parseAllTags fields = .ok tagOpts)
    (hmem : opts ∈ tagOpts)
    (hnf : (getValueFromSources srcs opts.key).1.2.2 = false)
    (hreq : opts.required = false)
    (hdef : opts.defaultValue ≠ "")
    (hcoerce : setField prim (kindAt fields opts.fieldIdx) opts.defaultValue = .ok gv) :
    fieldSet prim srcs fields opts = some gv ∧
    (validateField gv opts = none → fieldErr prim srcs fields opts = none) ∧
    ∀ record, (Load prim srcs fields).1 = .ok record →
      record[opts.fieldIdx]? = some gv := by
  obtain ⟨hopts, _⟩ := parseAllTags_ok_iff fields tagOpts hparse
  refine ⟨by simp [fieldSet, hnf, hreq, hdef, hcoerce], ?_, ?_⟩
  · intro hval
    simp [fieldErr, hnf, hreq, hdef, hcoerce, hval]
  · intro record hload
    unfold Load at hload
    rw [hparse] at hload
    by_cases herr :
        (loadFields prim srcs fields tagOpts (fields.map fun f => zeroValue f.kind)).1.2 = []
    · simp only [herr, if_pos, Except.ok.injEq] at hload
      subst hload
      have hsetv : fieldSet prim srcs fields opts = some gv := by
        simp [fieldSet, hnf, hreq, hdef, hcoerce]
      have hpw : List.Pairwise (fun a b => a.fieldIdx < b.fieldIdx) tagOpts := by
        rw [hopts]; exact parseAllTagsAux_pairwise fields 0
      have hlt : opts.fieldIdx < (fields.map fun f => zeroValue f.kind).length := by
        rw [List.length_map]
        have := parseAllTagsAux_bounds fields 0 opts (hopts ▸ hmem)
        omega
      exact loadFields_get_set prim srcs fields tagOpts _ opts gv hmem hpw hlt hsetv
    · simp [herr] at hload

/-- C9 (counterexample to the claim as stated): an `int8` field loaded
from the decimal string `"300"` (which overflows 8 bits but fits in 64)
does not produce a coercion error — `Load` succeeds and the field holds
the two's-complement truncation `44`. -/
theorem int8_overflow_truncates_counterexample :
    (Load trivPrims [mockSource "m" [("n", "300")]]
        [⟨.rint 8 false, "n", true⟩]).1
      = .ok [.vint 44] := by rfl

/-- C9 (amended): coercion into a narrow signed field parses at 64-bit
width; any decimal within the `int64` range coerces without error and
is stored reduced two's-complement into the field width — a value in
range is stored unchanged, an overflowing one is silently truncated to
a different value — never a coercion error for in-`int64`-range
input. -/
theorem narrow_int_coercion_truncates (prim : StdPrims) (w : Nat) (hw : 0 < w)
    (s : String) (v : Int) (hv : goParseInt s 64 = some v) :
    setField prim (.rint w false) s = .ok (.vint (wrapInt w v)) ∧
    -(2 ^ (w - 1) : Int) ≤ wrapInt w v ∧
    wrapInt w v < 2 ^ (w - 1) ∧
    wrapInt w v % 2 ^ w = v % 2 ^ w ∧
    (((2 ^ (w - 1) : Int) ≤ v ∨ v < -(2 ^ (w - 1))) → wrapInt w v ≠ v) := by
  have hset : setField prim (.rint w false) s = .ok (.vint (wrapInt w v)) := by
    simp [setField, hv]
  have hp2 : (2 : Int) ^ w = 2 * 2 ^ (w - 1) := by
    conv_lhs => rw [show w = (w - 1) + 1 by omega]
    ring
  have hppos : (0 : Int) < 2 ^ (w - 1) := by positivity
  have hPpos : (0 : Int) < 2 ^ w := by positivity
  have hm0 : 0 ≤ v % 2 ^ w := Int.emod_nonneg v (by omega)
  have hmlt : v % 2 ^ w < 2 ^ w := Int.emod_lt_of_pos v hPpos
  have hmm : (v % 2 ^ w) % 2 ^ w = v % 2 ^ w := Int.emod_emod_of_dvd v dvd_rfl
  have hsub : (v % 2 ^ w - 2 ^ w) % 2 ^ w = (v % 2 ^ w) % 2 ^ w := Int.emod_sub_cancel (v % 2 ^ w) (2 ^ w)
  refine ⟨hset, ?_, ?_, ?_, ?_⟩ <;>
    · intros
      simp only [wrapInt]
      split <;> omega

/-- C10: `validateField` silently ignores constraints that do not apply
to the field's kind — `min`/`max` never fire on a string field,
`minLen`/`maxLen` never fire on signed, unsigned or float fields, and
no bound of any sort fires on a bool field. -/
theorem validate_ignores_inapplicable_bounds :
    (∀ (s : String) (o : TagOptions), o.minLen = none → o.maxLen = none →
        validateField (.vstr s) o = none) ∧
    (∀ (v : Int) (o : TagOptions), o.min = none → o.max = none →
        validateField (.vint v) o = none) ∧
    (∀ (v : Nat) (o : TagOptions), o.min = none → o.max = none →
        validateField (.vuint v) o = none) ∧
    (∀ (q : Rat) (o : TagOptions), o.min = none → o.max = none →
        validateField (.vfloat q) o = none) ∧
    (∀ (b : Bool) (o : TagOptions), validateField (.vbool b) o = none) := by
  refine ⟨?_, ?_, ?_, ?_, ?_⟩ <;> intros <;> simp_all [validateField]

/-! ## Witnesses -/

theorem load_all_or_nothing_witness :
    (Load trivPrims [mockSource "A" [("value", "x")]]
        [⟨.rstring, "value", true⟩]).1 = .ok [.vstr "x"] ∧
    (Load trivPrims [mockSource "A" []]
        [⟨.rstring, "value,required", true⟩]).1 = .error [.requiredNotFound "value"] := by
  constructor
  · have h := load_all_or_nothing trivPrims [mockSource "A" [("value", "x")]]
      [⟨.rstring, "value", true⟩] [{ key := "value" }] (by rfl)
    rw [h.2.1 (by rfl)]
    rfl
  · have h := load_all_or_nothing trivPrims [mockSource "A" []]
      [⟨.rstring, "value,required", true⟩] [{ key := "value", required := true }] (by rfl)
    rw [h.2.2 (by decide)]
    rfl

theorem load_validation_error_fails_witness :
    ∃ errs, (Load trivPrims [mockSource "A" [("age", "5")]]
        [⟨.rint 64 false, "age,min=10", true⟩]).1 = .error errs ∧
      LoadErr.validation (.intTooSmall 5 10) ∈ errs :=
  load_validation_error_fails trivPrims [mockSource "A" [("age", "5")]]
    [⟨.rint 64 false, "age,min=10", true⟩]
    [{ key := "age", min := some 10 }] { key := "age", min := some 10 }
    "5" "A" (.vint 5) (.intTooSmall 5 10)
    (by rfl) (by decide) (by rfl) (by rfl) (by rfl)

theorem required_precedes_default_witness :
    fieldSet trivPrims [mockSource "test" []]
        [⟨.rstring, "k,required,default=x", true⟩]
        { key := "k", required := true, defaultValue := "x" } = none ∧
    ∃ errs, (Load trivPrims [mockSource "test" []]
        [⟨.rstring, "k,required,default=x", true⟩]).1 = .error errs ∧
      LoadErr.requiredNotFound "k" ∈ errs :=
  required_precedes_default trivPrims [mockSource "test" []]
    [⟨.rstring, "k,required,default=x", true⟩]
    [{ key := "k", required := true, defaultValue := "x" }]
    { key := "k", required := true, defaultValue := "x" }
    (by rfl) (by decide) (by rfl) (by rfl)

theorem tag_errors_abort_before_sources_witness :
    Load trivPrims [mockSource "m" [("a", "1")]]
        [⟨.rint 64 false, "a,min=abc", true⟩, ⟨.rstring, "b,maxLen=xyz", true⟩]
      = (.error [.tagParse (.invalidMin "abc"), .tagParse (.invalidMaxLen "xyz")], []) ∧
    LoadErr.tagParse (.invalidMin "abc")
      ∈ (parseAllTagsAux
          [⟨.rint 64 false, "a,min=abc", true⟩, ⟨.rstring, "b,maxLen=xyz", true⟩] 0).1 ∧
    LoadErr.tagParse (.invalidMaxLen "xyz")
      ∈ (parseAllTagsAux
          [⟨.rint 64 false, "a,min=abc", true⟩, ⟨.rstring, "b,maxLen=xyz", true⟩] 0).1 := by
  have h := tag_errors_abort_before_sources trivPrims [mockSource "m" [("a", "1")]]
    [⟨.rint 64 false, "a,min=abc", true⟩, ⟨.rstring, "b,maxLen=xyz", true⟩] (by decide)
  exact ⟨h.1, h.2 0 ⟨.rint 64 false, "a,min=abc", true⟩ (by rfl) (by rfl) (by decide)
      (.invalidMin "abc") (by decide),
    h.2 1 ⟨.rstring, "b,maxLen=xyz", true⟩ (by rfl) (by rfl) (by decide)
      (.invalidMaxLen "xyz") (by decide)⟩

theorem first_source_wins_witness :
    (getValueFromSources [mockSource "A" [("k", "a")], mockSource "B" [("k", "b")]] "k").1
      = ("a", "A", true) ∧
    (Load trivPrims [mockSource "A" [("k", "a")], mockSource "B" [("k", "b")]]
        [⟨.rstring, "k", true⟩]).1 = .ok [.vstr "a"] :=
  ⟨first_source_wins (mockSource "A" [("k", "a")]) [mockSource "B" [("k", "b")]]
      "k" "a" (by rfl),
    by rfl⟩

theorem source_error_never_surfaces_witness :
    (getValueFromSources
        [errSource "bad" "boom", mockSource "B" [("value", "from-b")]] "value").1
      = (getValueFromSources [mockSource "B" [("value", "from-b")]] "value").1 ∧
    (Load trivPrims [errSource "bad" "boom", mockSource "B" [("value", "from-b")]]
        [⟨.rstring, "value", true⟩]).1
      = (Load trivPrims [mockSource "B" [("value", "from-b")]]
          [⟨.rstring, "value", true⟩]).1 ∧
    (Load trivPrims [errSource "bad" "boom", mockSource "B" [("value", "from-b")]]
        [⟨.rstring, "value", true⟩]).1 = .ok [.vstr "from-b"] :=
  ⟨(source_error_never_surfaces trivPrims [⟨.rstring, "value", true⟩]
      (errSource "bad" "boom") [mockSource "B" [("value", "from-b")]]).1 "value" (by rfl),
    (source_error_never_surfaces trivPrims [⟨.rstring, "value", true⟩]
      (errSource "bad" "boom") [mockSource "B" [("value", "from-b")]]).2 (fun _ => by rfl),
    by rfl⟩

theorem missing_required_in_aggregate_witness :
    (∃ errs, (Load trivPrims [mockSource "test" []]
        [⟨.rstring, "field1,required", true⟩, ⟨.rstring, "field2,required", true⟩,
          ⟨.rstring, "field3,required", true⟩]).1 = .error errs ∧
      LoadErr.requiredNotFound "field1" ∈ errs ∧
      ("required value " ++ "field1" ++ " not found in provided sources")
        ∈ errs.map renderLoadErr) ∧
    (∃ errs, (Load trivPrims [mockSource "test" []]
        [⟨.rstring, "field1,required", true⟩, ⟨.rstring, "field2,required", true⟩,
          ⟨.rstring, "field3,required", true⟩]).1 = .error errs ∧
      LoadErr.requiredNotFound "field2" ∈ errs ∧
      ("required value " ++ "field2" ++ " not found in provided sources")
        ∈ errs.map renderLoadErr) ∧
    (∃ errs, (Load trivPrims [mockSource "test" []]
        [⟨.rstring, "field1,required", true⟩, ⟨.rstring, "field2,required", true⟩,
          ⟨.rstring, "field3,required", true⟩]).1 = .error errs ∧
      LoadErr.requiredNotFound "field3" ∈ errs ∧
      ("required value " ++ "field3" ++ " not found in provided sources")
        ∈ errs.map renderLoadErr) :=
  ⟨missing_required_in_aggregate trivPrims [mockSource "test" []]
      [⟨.rstring, "field1,required", true⟩, ⟨.rstring, "field2,required", true⟩,
        ⟨.rstring, "field3,required", true⟩]
      [{ key := "field1", required := true }, { key := "field2", fieldIdx := 1, required := true },
        { key := "field3", fieldIdx := 2, required := true }]
      { key := "field1", required := true } (by rfl) (by decide) (by rfl) (by rfl),
    missing_required_in_aggregate trivPrims [mockSource "test" []]
      [⟨.rstring, "field1,required", true⟩, ⟨.rstring, "field2,required", true⟩,
        ⟨.rstring, "field3,required", true⟩]
      [{ key := "field1", required := true }, { key := "field2", fieldIdx := 1, required := true },
        { key := "field3", fieldIdx := 2, required := true }]
      { key := "field2", fieldIdx := 1, required := true } (by rfl) (by decide) (by rfl) (by rfl),
    missing_required_in_aggregate trivPrims [mockSource "test" []]
      [⟨.rstring, "field1,required", true⟩, ⟨.rstring, "field2,required", true⟩,
        ⟨.rstring, "field3,required", true⟩]
      [{ key := "field1", required := true }, { key := "field2", fieldIdx := 1, required := true },
        { key := "field3", fieldIdx := 2, required := true }]
      { key := "field3", fieldIdx := 2, required := true } (by rfl) (by decide) (by rfl) (by rfl)⟩

theorem default_coerced_into_field_witness :
    fieldSet trivPrims [mockSource "test" []]
        [⟨.rint 64 false, "port,default=8080", true⟩]
        { key := "port", defaultValue := "8080" } = some (.vint 8080) ∧
    fieldErr trivPrims [mockSource "test" []]
        [⟨.rint 64 false, "port,default=8080", true⟩]
        { key := "port", defaultValue := "8080" } = none ∧
    (Load trivPrims [mockSource "test" []]
        [⟨.rint 64 false, "port,default=8080", true⟩]).1 = .ok [.vint 8080] ∧
    ([GoValue.vint 8080] : List GoValue)[0]? = some (GoValue.vint 8080) := by
  have h := default_coerced_into_field trivPrims [mockSource "test" []]
    [⟨.rint 64 false, "port,default=8080", true⟩]
    [{ key := "port", defaultValue := "8080" }] { key := "port", defaultValue := "8080" }
    (.vint 8080) (by rfl) (by decide) (by rfl) (by rfl) (by decide) (by rfl)
  exact ⟨h.1, h.2.1 (by rfl), by rfl, h.2.2 [.vint 8080] (by rfl)⟩

theorem narrow_int_coercion_truncates_witness :
    setField trivPrims (RKind.rint 8 false) "300" = .ok (.vint (wrapInt 8 300)) ∧
    wrapInt 8 300 = 44 ∧
    wrapInt 8 300 ≠ 300 := by
  have h := narrow_int_coercion_truncates trivPrims 8 (by decide) "300" 300 (by rfl)
  exact ⟨h.1, by rfl, h.2.2.2.2 (by decide)⟩

theorem validate_ignores_inapplicable_bounds_witness :
    validateField (.vstr "hi") { key := "k", min := some 100, max := some 0 } = none ∧
    validateField (.vint 7) { key := "k", minLen := some 100, maxLen := some 0 } = none ∧
    validateField (.vuint 7) { key := "k", minLen := some 100, maxLen := some 0 } = none ∧
    validateField (.vfloat 7) { key := "k", minLen := some 100, maxLen := some 0 } = none ∧
    validateField (.vbool true) { key := "k", min := some 3, minLen := some 9 } = none :=
  ⟨validate_ignores_inapplicable_bounds.1 "hi" _ rfl rfl,
    validate_ignores_inapplicable_bounds.2.1 7 _ rfl rfl,
    validate_ignores_inapplicable_bounds.2.2.1 7 _ rfl rfl,
    validate_ignores_inapplicable_bounds.2.2.2.1 7 _ rfl rfl,
    validate_ignores_inapplicable_bounds.2.2.2.2 true _⟩

end Configly
